import Mathlib

/-!
# Reviewer Assignment Engine — verification of the pr-reviewer-service core

Shallow embedding of the Go service (`internal/service`, `internal/storage`,
`internal/controller`) of the pr-reviewer-service repository.

Modelling conventions:
* The Postgres store is a pure record `StorageState`; each SQL statement of
  `storage.go` becomes a pure function on it.  `ORDER BY` clauses are modelled
  by an executable insertion sort on the relevant key.
* Timestamps (`time.Now()` / `CURRENT_TIMESTAMP`) are a `Nat` parameter `now`.
* The process-wide random source `rand.Rand` is an oracle `ρ : Nat → Nat`
  (one draw per Fisher–Yates step, reduced mod the bound, exactly as
  `rand.Shuffle` / `rand.Intn` consume draws in Go's math/rand); theorems
  quantify over every oracle.
* Go's `error` values split into the service's typed `*ServiceError` and
  plain `fmt.Errorf` errors (`GoErr.svc` / `GoErr.generic`), which is the
  distinction the controller's `err.(*service.ServiceError)` assertion makes.
* Every service operation returns its result together with the storage state
  after exactly the writes it performed.
-/

namespace PRReviewer

/-- `models.TeamMember` (fields as serialized in the team payload). -/
structure TeamMember where
  userID : String
  username : String
  isActive : Bool
deriving DecidableEq, Repr

/-- `models.TeamResponse`: a team name plus its member list. -/
structure TeamResponse where
  teamName : String
  members : List TeamMember
deriving DecidableEq, Repr

/-- `models.User`: one row of the `users` table. -/
structure User where
  userID : String
  username : String
  teamName : String
  isActive : Bool
deriving DecidableEq, Repr

/-- `models.PullRequest`: one row of the `pull_requests` table together with
the `AssignedReviewers` aggregate field (empty on the stored row; populated by
`GetPullRequest`). -/
structure PullRequest where
  pullRequestID : String
  pullRequestName : String
  authorID : String
  status : String
  createdAt : Nat
  mergedAt : Option Nat
  assignedReviewers : List String
deriving DecidableEq, Repr

/-- The relational state behind the `Storage` interface: the `teams`, `users`,
`pull_requests` and `pr_reviewers` tables. -/
structure StorageState where
  teams : List String
  users : List User
  pullRequests : List PullRequest
  prReviewers : List (String × String)
deriving DecidableEq, Repr

/-- Lexicographic comparison of char lists, structurally recursive so that
concrete comparisons reduce in the kernel. -/
def charListLe : List Char → List Char → Bool
  | [], _ => true
  | _ :: _, [] => false
  | a :: as, b :: bs =>
    if a.toNat < b.toNat then true
    else if b.toNat < a.toNat then false
    else charListLe as bs

/-- Lexicographic string order used to model SQL `ORDER BY` on varchar keys. -/
def strLe (a b : String) : Bool := charListLe a.data b.data

/-- Insertion step of the sort used to model SQL `ORDER BY`. -/
def insertLe {α : Type} (le : α → α → Bool) (a : α) : List α → List α
  | [] => [a]
  | b :: bs => if le a b then a :: b :: bs else b :: insertLe le a bs

/-- Executable sort modelling SQL `ORDER BY` (output sorted by `le`). -/
def sortLe {α : Type} (le : α → α → Bool) : List α → List α
  | [] => []
  | a :: as => insertLe le a (sortLe le as)

namespace Store

/-- `PostgresStorage.TeamExists`: `SELECT EXISTS(... WHERE team_name = $1)`. -/
def teamExists (st : StorageState) (teamName : String) : Bool :=
  st.teams.contains teamName

/-- `PostgresStorage.CreateTeam`: `INSERT INTO teams (team_name) VALUES ($1)`
(the service only calls it after a `TeamExists` check, honouring the primary
key). -/
def createTeam (st : StorageState) (teamName : String) : StorageState :=
  { st with teams := st.teams ++ [teamName] }

/-- `PostgresStorage.CreateOrUpdateUser`: `INSERT ... ON CONFLICT (user_id)
DO UPDATE SET username, team_name, is_active`. -/
def createOrUpdateUser (st : StorageState) (user : User) : StorageState :=
  if st.users.any (fun u => u.userID == user.userID) then
    { st with users := st.users.map (fun u => if u.userID == user.userID then user else u) }
  else
    { st with users := st.users ++ [user] }

/-- `PostgresStorage.GetUser`: `SELECT ... FROM users WHERE user_id = $1`
(`user_id` is the primary key, so the first match is the row). -/
def getUser (st : StorageState) (userID : String) : Option User :=
  st.users.find? (fun u => u.userID == userID)

/-- `PostgresStorage.SetUserActive`: `UPDATE users SET is_active = $1 WHERE
user_id = $2`, "user not found" when no row is affected. -/
def setUserActive (st : StorageState) (userID : String) (isActive : Bool) :
    Except String StorageState :=
  if st.users.any (fun u => u.userID == userID) then
    let updated := st.users.map
      (fun u => if u.userID == userID then { u with isActive := isActive } else u)
    .ok { st with users := updated }
  else
    .error "user not found"

/-- `PostgresStorage.GetActiveTeamMembers`: `SELECT ... WHERE team_name = $1
AND is_active = true AND user_id != $2 ORDER BY user_id`. -/
def getActiveTeamMembers (st : StorageState) (teamName excludeUserID : String) : List User :=
  sortLe (fun a b => strLe a.userID b.userID)
    (st.users.filter (fun u =>
      u.teamName == teamName && u.isActive && u.userID != excludeUserID))

/-- `PostgresStorage.PRExists`: `SELECT EXISTS(... WHERE pull_request_id = $1)`. -/
def prExists (st : StorageState) (prID : String) : Bool :=
  st.pullRequests.any (fun pr => pr.pullRequestID == prID)

/-- `PostgresStorage.CreatePullRequest`: `INSERT INTO pull_requests ...`
(called by the service only after a `PRExists` check, honouring the primary
key; the stored row has no reviewer column, so `assignedReviewers` is `[]`). -/
def createPullRequest (st : StorageState) (pr : PullRequest) : StorageState :=
  { st with pullRequests := st.pullRequests ++ [{ pr with assignedReviewers := [] }] }

/-- `PostgresStorage.GetReviewers`: `SELECT user_id FROM pr_reviewers WHERE
pull_request_id = $1 ORDER BY user_id`. -/
def getReviewers (st : StorageState) (prID : String) : List String :=
  sortLe strLe
    ((st.prReviewers.filter (fun p => p.1 == prID)).map (fun p => p.2))

/-- `PostgresStorage.GetPullRequest`: row lookup by primary key followed by
`GetReviewers`, populating `AssignedReviewers`. -/
def getPullRequest (st : StorageState) (prID : String) : Option PullRequest :=
  (st.pullRequests.find? (fun pr => pr.pullRequestID == prID)).map
    (fun pr => { pr with assignedReviewers := getReviewers st prID })

/-- `PostgresStorage.MergePullRequest`: `UPDATE pull_requests SET status =
MERGED, merged_at = CURRENT_TIMESTAMP WHERE pull_request_id = $1 AND status =
OPEN`; when no row is affected, "pull request not found" only if the id does
not exist (a plain `fmt.Errorf`, not a `ServiceError`). -/
def mergePullRequest (st : StorageState) (prID : String) (now : Nat) :
    Except String StorageState :=
  let updated := st.pullRequests.map (fun pr =>
    if pr.pullRequestID == prID && pr.status == "OPEN" then
      { pr with status := "MERGED", mergedAt := some now }
    else pr)
  let rowsAffected := (st.pullRequests.filter (fun pr =>
    pr.pullRequestID == prID && pr.status == "OPEN")).length
  if rowsAffected == 0 then
    if prExists st prID then .ok { st with pullRequests := updated }
    else .error "pull request not found"
  else .ok { st with pullRequests := updated }

/-- `PostgresStorage.AddReviewer`: `INSERT INTO pr_reviewers ... ON CONFLICT
DO NOTHING`. -/
def addReviewer (st : StorageState) (prID userID : String) : StorageState :=
  if st.prReviewers.contains (prID, userID) then st
  else { st with prReviewers := st.prReviewers ++ [(prID, userID)] }

/-- `PostgresStorage.RemoveReviewer`: `DELETE FROM pr_reviewers WHERE
pull_request_id = $1 AND user_id = $2`. -/
def removeReviewer (st : StorageState) (prID userID : String) : StorageState :=
  { st with prReviewers := st.prReviewers.filter (fun p => !(p.1 == prID && p.2 == userID)) }

/-- `PostgresStorage.IsReviewerAssigned`: `SELECT EXISTS(... WHERE
pull_request_id = $1 AND user_id = $2)`. -/
def isReviewerAssigned (st : StorageState) (prID userID : String) : Bool :=
  st.prReviewers.contains (prID, userID)

end Store

/-- `service.ServiceError`: the typed business error, a string code plus a
message. -/
structure ServiceError where
  code : String
  message : String
deriving DecidableEq, Repr

/-- A Go `error` value as the controller discriminates it: either a typed
`*service.ServiceError` or a plain error (`fmt.Errorf`), which the
controller's type assertion `err.(*service.ServiceError)` rejects. -/
inductive GoErr where
  | svc : ServiceError → GoErr
  | generic : String → GoErr
deriving DecidableEq, Repr

/-- Swap of two list positions, as the swap closure passed to
`rand.Shuffle` (`candidates[i], candidates[j] = candidates[j], candidates[i]`). -/
def listSwap {α : Type} (xs : List α) (i j : Nat) : List α :=
  match xs.get? i, xs.get? j with
  | some a, some b => (xs.set i b).set j a
  | _, _ => xs

/-- The Fisher–Yates loop of Go's `rand.Shuffle`: for `i` from `n-1` down to
`1`, draw `j` uniform in `[0, i+1)` (the oracle draw reduced mod `i+1`) and
swap positions `i` and `j`. -/
def fyLoop {α : Type} (ρ : Nat → Nat) : Nat → List α → List α
  | 0, xs => xs
  | i + 1, xs => fyLoop ρ i (listSwap xs (i + 1) (ρ (i + 1) % (i + 2)))

/-- `rand.Shuffle` on a list, with the random draws supplied by the oracle. -/
def goShuffle {α : Type} (xs : List α) (ρ : Nat → Nat) : List α :=
  fyLoop ρ (xs.length - 1) xs

namespace Service

/-- `Service.assignReviewers`: fetch active team members excluding
`excludeUserID`, cap the count at the pool size, shuffle, take the first
`count` user ids. -/
def assignReviewers (st : StorageState) (teamName excludeUserID : String)
    (maxCount : Nat) (ρ : Nat → Nat) : List String :=
  let candidates := Store.getActiveTeamMembers st teamName excludeUserID
  let count := if candidates.length < maxCount then candidates.length else maxCount
  let shuffled := goShuffle candidates ρ
  (shuffled.take count).map (fun u => u.userID)

/-- `Service.CreateTeam`: reject an existing team name with `TEAM_EXISTS`,
otherwise create the team and upsert every listed member into it. -/
def CreateTeam (st : StorageState) (req : TeamResponse) :
    Except GoErr Unit × StorageState :=
  if Store.teamExists st req.teamName then
    (.error (.svc ⟨"TEAM_EXISTS", "team already exists"⟩), st)
  else
    let st1 := Store.createTeam st req.teamName
    let st2 := req.members.foldl
      (fun s member => Store.createOrUpdateUser s
        { userID := member.userID, username := member.username,
          teamName := req.teamName, isActive := member.isActive }) st1
    (.ok (), st2)

/-- `Service.CreatePullRequest`: reject an existing id with `PR_EXISTS`, an
unknown author with `NOT_FOUND`; otherwise insert the OPEN row, pick up to 2
reviewers from the author's team and add one association per pick, returning
the aggregate with the picked ids attached. -/
def CreatePullRequest (st : StorageState) (prID prName authorID : String)
    (now : Nat) (ρ : Nat → Nat) : Except GoErr PullRequest × StorageState :=
  if Store.prExists st prID then
    (.error (.svc ⟨"PR_EXISTS", "pull request already exists"⟩), st)
  else
    match Store.getUser st authorID with
    | none => (.error (.svc ⟨"NOT_FOUND", "author not found"⟩), st)
    | some author =>
      let pr : PullRequest :=
        { pullRequestID := prID, pullRequestName := prName, authorID := authorID,
          status := "OPEN", createdAt := now, mergedAt := none,
          assignedReviewers := [] }
      let st1 := Store.createPullRequest st pr
      let reviewers := assignReviewers st1 author.teamName authorID 2 ρ
      let st2 := reviewers.foldl (fun s r => Store.addReviewer s prID r) st1
      (.ok { pr with assignedReviewers := reviewers }, st2)

/-- `Service.MergePullRequest`: delegate to the store's conditional `UPDATE`
(errors pass through untyped), then re-read and return the aggregate. -/
def MergePullRequest (st : StorageState) (prID : String) (now : Nat) :
    Except GoErr PullRequest × StorageState :=
  match Store.mergePullRequest st prID now with
  | .error msg => (.error (.generic msg), st)
  | .ok st1 =>
    match Store.getPullRequest st1 prID with
    | none => (.error (.generic "pull request not found"), st1)
    | some pr => (.ok pr, st1)

/-- `Service.ReassignReviewer`: check the preconditions in source order
(PR exists, not merged, outgoing user assigned, outgoing user known), filter
the outgoing reviewer's team mates down to those neither the author nor
already assigned, fail with `NO_CANDIDATE` on an empty pool, otherwise pick
one at random (`rand.Intn`), remove the outgoing and add the new association,
and return the re-read aggregate plus the new reviewer id. -/
def ReassignReviewer (st : StorageState) (prID oldReviewerID : String)
    (r : Nat) : Except GoErr (PullRequest × String) × StorageState :=
  match Store.getPullRequest st prID with
  | none => (.error (.svc ⟨"NOT_FOUND", "pull request not found"⟩), st)
  | some pr =>
    if pr.status == "MERGED" then
      (.error (.svc ⟨"PR_MERGED", "cannot reassign on merged PR"⟩), st)
    else if !(Store.isReviewerAssigned st prID oldReviewerID) then
      (.error (.svc ⟨"NOT_ASSIGNED", "user is not assigned as reviewer to this PR"⟩), st)
    else
      match Store.getUser st oldReviewerID with
      | none => (.error (.svc ⟨"NOT_FOUND", "reviewer not found"⟩), st)
      | some oldReviewer =>
        let candidates := Store.getActiveTeamMembers st oldReviewer.teamName oldReviewerID
        let availableCandidates := candidates.filter (fun c =>
          c.userID != pr.authorID && !(Store.isReviewerAssigned st prID c.userID))
        if h : availableCandidates.length = 0 then
          (.error (.svc ⟨"NO_CANDIDATE", "no active replacement candidate available in team"⟩), st)
        else
          let newReviewerID := (availableCandidates.get
            ⟨r % availableCandidates.length,
             Nat.mod_lt r (Nat.pos_of_ne_zero h)⟩).userID
          let st1 := Store.removeReviewer st prID oldReviewerID
          let st2 := Store.addReviewer st1 prID newReviewerID
          match Store.getPullRequest st2 prID with
          | none => (.error (.generic "pull request not found"), st2)
          | some pr2 => (.ok (pr2, newReviewerID), st2)

end Service

/-- `Controller.MergePullRequest`'s error mapping: a typed `ServiceError`
with code `NOT_FOUND` becomes HTTP 404 with that code; every other error —
including any plain (non-`ServiceError`) error — becomes HTTP 500 with code
`INTERNAL_ERROR`. Returns (HTTP status, error code of the envelope). -/
def mergeErrorResponse : GoErr → Nat × String
  | .svc e => if e.code == "NOT_FOUND" then (404, e.code) else (500, "INTERNAL_ERROR")
  | .generic _ => (500, "INTERNAL_ERROR")

/-- The spec's business-level error taxonomy (§7), a closed enumeration. -/
inductive ErrKind where
  | notFound
  | alreadyExists
  | invalidState
  | notAssigned
  | noCandidate
deriving DecidableEq, Repr

/-- Modelled from the spec (§7 together with §9's note that the original
carries typed error codes as string tags): the correspondence between the
source's string tags and the spec taxonomy — `TEAM_EXISTS`/`PR_EXISTS` are
the "team or pull request id collision on creation" (`ALREADY_EXISTS`),
`PR_MERGED` is the "operation forbidden given current lifecycle state (e.g.,
reassigning on a merged pull request)" (`INVALID_STATE`). -/
def specKind : String → Option ErrKind
  | "NOT_FOUND" => some .notFound
  | "TEAM_EXISTS" => some .alreadyExists
  | "PR_EXISTS" => some .alreadyExists
  | "PR_MERGED" => some .invalidState
  | "NOT_ASSIGNED" => some .notAssigned
  | "NO_CANDIDATE" => some .noCandidate
  | _ => none

/-! ## Groundwork: the sort and the shuffle are permutations -/

/-- A decidable-equality instance for `Except`, so concrete service results
can be checked by `decide`. -/
def exceptDecEq {ε α : Type} [DecidableEq ε] [DecidableEq α] :
    DecidableEq (Except ε α)
  | .error e, .error f =>
    if h : e = f then .isTrue (by rw [h])
    else .isFalse (by intro hh; cases hh; exact h rfl)
  | .error _, .ok _ => .isFalse (by intro hh; cases hh)
  | .ok _, .error _ => .isFalse (by intro hh; cases hh)
  | .ok a, .ok b =>
    if h : a = b then .isTrue (by rw [h])
    else .isFalse (by intro hh; cases hh; exact h rfl)

instance {ε α : Type} [DecidableEq ε] [DecidableEq α] :
    DecidableEq (Except ε α) := exceptDecEq

theorem insertLe_perm {α : Type} (le : α → α → Bool) (a : α) (l : List α) :
    (insertLe le a l).Perm (a :: l) := by
  induction l with
  | nil => simp [insertLe]
  | cons b bs ih =>
    simp only [insertLe]
    split
    · exact List.Perm.refl _
    · exact (ih.cons b).trans (List.Perm.swap a b bs)

theorem sortLe_perm {α : Type} (le : α → α → Bool) (l : List α) :
    (sortLe le l).Perm l := by
  induction l with
  | nil => exact List.Perm.refl _
  | cons a as ih =>
    exact (insertLe_perm le a (sortLe le as)).trans (ih.cons a)

theorem mem_sortLe {α : Type} {le : α → α → Bool} {l : List α} {x : α} :
    x ∈ sortLe le l ↔ x ∈ l :=
  (sortLe_perm le l).mem_iff

theorem listSwap_perm {α : Type} [DecidableEq α] (xs : List α) (i j : Nat) :
    (listSwap xs i j).Perm xs := by
  cases hi : xs[i]? with
  | none => simp [listSwap, List.get?_eq_getElem?, hi]
  | some a =>
    cases hj : xs[j]? with
    | none => simp [listSwap, List.get?_eq_getElem?, hi, hj]
    | some b =>
      obtain ⟨hi', hxi⟩ := List.getElem?_eq_some_iff.mp hi
      obtain ⟨hj', hxj⟩ := List.getElem?_eq_some_iff.mp hj
      have hswap : listSwap xs i j = (xs.set i b).set j a := by
        unfold listSwap
        rw [List.get?_eq_getElem?, List.get?_eq_getElem?, hi, hj]
      rw [hswap, List.perm_iff_count]
      intro c
      have hjlen : j < (xs.set i b).length := by simpa using hj'
      have hset : (xs.set i b)[j] = if i = j then b else xs[j] :=
        List.getElem_set (l := xs) (m := i) (n := j) (a := b) hjlen
      have hmem : a ∈ xs := hxi ▸ List.getElem_mem hi'
      have hcount : (if a = c then 1 else 0) ≤ List.count c xs := by
        by_cases hac : a = c
        · subst hac
          simpa [List.count_pos_iff] using hmem
        · simp [hac]
      rw [List.count_set a c (xs.set i b) j hjlen,
        List.count_set b c xs i hi']
      by_cases hij : i = j
      · subst hij
        rw [hset]
        simp only [if_pos rfl, hxi, beq_iff_eq]
        by_cases hac : a = c <;> by_cases hbc : b = c <;> simp_all
      · rw [hset, if_neg hij, hxj, hxi]
        simp only [beq_iff_eq]
        by_cases hac : a = c <;> by_cases hbc : b = c <;> simp_all

theorem fyLoop_perm {α : Type} [DecidableEq α] (ρ : Nat → Nat) :
    ∀ (n : Nat) (xs : List α), (fyLoop ρ n xs).Perm xs
  | 0, _ => List.Perm.refl _
  | i + 1, xs =>
    (fyLoop_perm ρ i (listSwap xs (i + 1) (ρ (i + 1) % (i + 2)))).trans
      (listSwap_perm xs (i + 1) (ρ (i + 1) % (i + 2)))

theorem goShuffle_perm {α : Type} [DecidableEq α] (xs : List α) (ρ : Nat → Nat) :
    (goShuffle xs ρ).Perm xs :=
  fyLoop_perm ρ (xs.length - 1) xs

/-! ## Candidate pool and initial selection -/

theorem mem_getActiveTeamMembers {st : StorageState} {t e : String} {u : User} :
    u ∈ Store.getActiveTeamMembers st t e ↔
      u ∈ st.users ∧ u.teamName = t ∧ u.isActive = true ∧ u.userID ≠ e := by
  unfold Store.getActiveTeamMembers
  rw [mem_sortLe, List.mem_filter]
  simp [and_assoc]

theorem getActiveTeamMembers_map_nodup {st : StorageState} {t e : String}
    (hkeys : (st.users.map (fun u => u.userID)).Nodup) :
    ((Store.getActiveTeamMembers st t e).map (fun u => u.userID)).Nodup := by
  unfold Store.getActiveTeamMembers
  have hsub : ((st.users.filter (fun (u : User) =>
      u.teamName == t && u.isActive && u.userID != e)).map
      (fun u => u.userID)).Sublist (st.users.map (fun u => u.userID)) :=
    (List.filter_sublist st.users).map _
  exact ((sortLe_perm _ _).map (fun (u : User) => u.userID)).symm.nodup
    (List.Nodup.sublist hsub hkeys)

theorem assignReviewers_length (st : StorageState) (t e : String)
    (m : Nat) (ρ : Nat → Nat) :
    (Service.assignReviewers st t e m ρ).length =
      min (Store.getActiveTeamMembers st t e).length m := by
  unfold Service.assignReviewers
  have hlen : (goShuffle (Store.getActiveTeamMembers st t e) ρ).length =
      (Store.getActiveTeamMembers st t e).length :=
    (goShuffle_perm _ ρ).length_eq
  simp only [List.length_map, List.length_take, hlen]
  rcases Nat.lt_or_ge (Store.getActiveTeamMembers st t e).length m with h | h
  · rw [if_pos h, Nat.min_self, Nat.min_eq_left (Nat.le_of_lt h)]
  · rw [if_neg (Nat.not_lt.mpr h), Nat.min_eq_left h, Nat.min_eq_right h]

theorem assignReviewers_nodup {st : StorageState} {t e : String}
    {m : Nat} {ρ : Nat → Nat}
    (hkeys : (st.users.map (fun u => u.userID)).Nodup) :
    (Service.assignReviewers st t e m ρ).Nodup := by
  unfold Service.assignReviewers
  rw [List.map_take]
  have hperm : ((goShuffle (Store.getActiveTeamMembers st t e) ρ).map
      (fun u => u.userID)).Perm
      ((Store.getActiveTeamMembers st t e).map (fun u => u.userID)) :=
    (goShuffle_perm _ ρ).map _
  exact List.Nodup.sublist (List.take_sublist _ _)
    (hperm.symm.nodup (getActiveTeamMembers_map_nodup hkeys))

theorem assignReviewers_mem {st : StorageState} {t e : String}
    {m : Nat} {ρ : Nat → Nat} {x : String}
    (hx : x ∈ Service.assignReviewers st t e m ρ) :
    ∃ u ∈ Store.getActiveTeamMembers st t e, u.userID = x := by
  unfold Service.assignReviewers at hx
  obtain ⟨u, hu, rfl⟩ := List.mem_map.mp hx
  have hu' : u ∈ goShuffle (Store.getActiveTeamMembers st t e) ρ :=
    (List.take_sublist _ _).mem hu
  exact ⟨u, ((goShuffle_perm _ ρ).mem_iff).mp hu', rfl⟩

theorem assignReviewers_not_excluded {st : StorageState} {t e : String}
    {m : Nat} {ρ : Nat → Nat} : e ∉ Service.assignReviewers st t e m ρ := by
  intro hx
  obtain ⟨u, hu, he⟩ := assignReviewers_mem hx
  exact (mem_getActiveTeamMembers.mp hu).2.2.2 he

/-- C1: for the author's team with `k` active non-author members, a fresh
`Service.CreatePullRequest` succeeds and assigns exactly `min k 2` reviewers,
pairwise distinct and none equal to the author — in particular zero
reviewers (still success) when `k = 0`. -/
theorem createPR_assigns_min_k_two_distinct_nonauthor_reviewers
    (st : StorageState) (prID prName authorID : String) (now : Nat)
    (ρ : Nat → Nat) (author : User)
    (hfresh : Store.prExists st prID = false)
    (hauthor : Store.getUser st authorID = some author)
    (hkeys : (st.users.map (fun u => u.userID)).Nodup) :
    ∃ pr : PullRequest,
      (Service.CreatePullRequest st prID prName authorID now ρ).1 = .ok pr ∧
      pr.assignedReviewers.length =
        min (Store.getActiveTeamMembers st author.teamName authorID).length 2 ∧
      pr.assignedReviewers.Nodup ∧
      authorID ∉ pr.assignedReviewers := by
  unfold Service.CreatePullRequest
  rw [hfresh, hauthor]
  simp only [Bool.false_eq_true, if_false]
  refine ⟨_, rfl, ?_, ?_, ?_⟩
  · exact assignReviewers_length _ _ _ _ _
  · exact assignReviewers_nodup hkeys
  · exact assignReviewers_not_excluded

/-! ## Reviewer associations -/

/-- The (unsorted) reviewer column of `pr_reviewers` for one pull request;
`Store.getReviewers` is its sorted presentation. -/
def rawReviewers (st : StorageState) (prID : String) : List String :=
  (st.prReviewers.filter (fun p => p.1 == prID)).map (fun p => p.2)

theorem getReviewers_perm_raw (st : StorageState) (prID : String) :
    (Store.getReviewers st prID).Perm (rawReviewers st prID) :=
  sortLe_perm _ _

theorem mem_rawReviewers {st : StorageState} {prID x : String} :
    x ∈ rawReviewers st prID ↔ (prID, x) ∈ st.prReviewers := by
  unfold rawReviewers
  rw [List.mem_map]
  constructor
  · rintro ⟨q, hq, rfl⟩
    obtain ⟨hmem, hfst⟩ := List.mem_filter.mp hq
    have : q.1 = prID := by simpa using hfst
    rw [← this]
    exact hmem
  · intro h
    exact ⟨(prID, x), List.mem_filter.mpr ⟨h, by simp⟩, rfl⟩

theorem mem_getReviewers {st : StorageState} {prID x : String} :
    x ∈ Store.getReviewers st prID ↔ (prID, x) ∈ st.prReviewers := by
  rw [(getReviewers_perm_raw st prID).mem_iff]
  exact mem_rawReviewers

theorem isReviewerAssigned_iff {st : StorageState} {prID x : String} :
    Store.isReviewerAssigned st prID x = true ↔ (prID, x) ∈ st.prReviewers :=
  List.elem_iff

theorem rawReviewers_nodup {st : StorageState} {prID : String}
    (h : st.prReviewers.Nodup) : (rawReviewers st prID).Nodup := by
  unfold rawReviewers
  refine List.Nodup.map_on ?_ (h.filter _)
  intro x hx y hy hxy
  obtain ⟨-, hx2⟩ := List.mem_filter.mp hx
  obtain ⟨-, hy2⟩ := List.mem_filter.mp hy
  have hx1 : x.1 = prID := by simpa using hx2
  have hy1 : y.1 = prID := by simpa using hy2
  exact Prod.ext (hx1.trans hy1.symm) hxy

theorem getReviewers_nodup {st : StorageState} {prID : String}
    (h : st.prReviewers.Nodup) : (Store.getReviewers st prID).Nodup :=
  (getReviewers_perm_raw st prID).symm.nodup (rawReviewers_nodup h)

theorem addReviewer_of_mem {st : StorageState} {p u : String}
    (h : (p, u) ∈ st.prReviewers) : Store.addReviewer st p u = st := by
  unfold Store.addReviewer
  rw [if_pos (List.elem_iff.mpr h)]

theorem addReviewer_prReviewers_of_not_mem {st : StorageState} {p u : String}
    (h : (p, u) ∉ st.prReviewers) :
    (Store.addReviewer st p u).prReviewers = st.prReviewers ++ [(p, u)] := by
  unfold Store.addReviewer
  rw [if_neg (fun hc => h (List.elem_iff.mp hc))]

theorem removeReviewer_prReviewers (st : StorageState) (p u : String) :
    (Store.removeReviewer st p u).prReviewers =
      st.prReviewers.filter (fun q => !(q.1 == p && q.2 == u)) := rfl

theorem raw_removeReviewer_self (st : StorageState) (p u : String) :
    rawReviewers (Store.removeReviewer st p u) p =
      (rawReviewers st p).filter (fun s => s != u) := by
  show ((st.prReviewers.filter (fun q => !(q.1 == p && q.2 == u))).filter
      (fun q => q.1 == p)).map (fun q => q.2) =
    ((st.prReviewers.filter (fun q => q.1 == p)).map (fun q => q.2)).filter
      (fun s => s != u)
  induction st.prReviewers with
  | nil => rfl
  | cons q qs ih =>
    obtain ⟨q1, q2⟩ := q
    by_cases h1 : q1 = p <;> by_cases h2 : q2 = u <;>
      simp only [List.filter_filter, Bool.not_and] at ih ⊢ <;>
      simp [List.filter_cons, h1, h2, ih]

/-- Replacing one assigned reviewer: after `RemoveReviewer old` then
`AddReviewer new`, the reviewer set of the pull request is, up to order, the
old set with `old` deleted and `new` inserted. -/
theorem getReviewers_after_replace {st : StorageState} {p old new : String}
    (hpairs : st.prReviewers.Nodup)
    (hnew : (p, new) ∉ st.prReviewers) :
    (Store.getReviewers (Store.addReviewer (Store.removeReviewer st p old) p new) p).Perm
      (new :: (Store.getReviewers st p).erase old) := by
  have hnew' : (p, new) ∉ (Store.removeReviewer st p old).prReviewers := by
    rw [removeReviewer_prReviewers]
    intro hc
    exact hnew (List.mem_filter.mp hc).1
  have hpairs2 : (Store.addReviewer (Store.removeReviewer st p old) p new).prReviewers =
      (Store.removeReviewer st p old).prReviewers ++ [(p, new)] :=
    addReviewer_prReviewers_of_not_mem hnew'
  have hraw : rawReviewers (Store.addReviewer (Store.removeReviewer st p old) p new) p =
      rawReviewers (Store.removeReviewer st p old) p ++ [new] := by
    unfold rawReviewers
    rw [hpairs2, List.filter_append, List.map_append]
    simp
  have herase : (rawReviewers st p).filter (fun s => s != old) =
      (rawReviewers st p).erase old :=
    ((rawReviewers_nodup hpairs).erase_eq_filter old).symm
  refine (getReviewers_perm_raw _ _).trans ?_
  rw [hraw, raw_removeReviewer_self, herase]
  exact (List.perm_append_singleton _ _).trans
    ((((getReviewers_perm_raw st p).erase old).symm).cons new)

theorem isReviewerAssigned_eq_false_iff {st : StorageState} {prID x : String} :
    Store.isReviewerAssigned st prID x = false ↔ (prID, x) ∉ st.prReviewers := by
  rw [← Bool.not_eq_true, not_iff_not]
  exact isReviewerAssigned_iff

theorem addReviewer_pullRequests (st : StorageState) (p u : String) :
    (Store.addReviewer st p u).pullRequests = st.pullRequests := by
  unfold Store.addReviewer
  split <;> rfl

theorem removeReviewer_pullRequests (st : StorageState) (p u : String) :
    (Store.removeReviewer st p u).pullRequests = st.pullRequests := rfl

/-- C2: a successful reassignment returns a pull request whose reviewer set
is the previous set minus the outgoing reviewer plus the new one (same
count), and the new reviewer is an active member of the outgoing reviewer's
team, is not the author, and was not previously assigned. -/
theorem reassign_success_replaces_one_reviewer
    (st : StorageState) (prID oldReviewerID : String) (r : Nat)
    (pr2 : PullRequest) (newReviewerID : String)
    (hpairs : st.prReviewers.Nodup)
    (h : (Service.ReassignReviewer st prID oldReviewerID r).1 =
      .ok (pr2, newReviewerID)) :
    pr2.assignedReviewers.Perm
      (newReviewerID :: (Store.getReviewers st prID).erase oldReviewerID) ∧
    pr2.assignedReviewers.length = (Store.getReviewers st prID).length ∧
    newReviewerID ∉ Store.getReviewers st prID ∧
    newReviewerID ≠ pr2.authorID ∧
    ∃ oldU, Store.getUser st oldReviewerID = some oldU ∧
      ∃ u ∈ Store.getActiveTeamMembers st oldU.teamName oldReviewerID,
        u.userID = newReviewerID := by
  unfold Service.ReassignReviewer at h
  split at h
  · simp at h
  next pr heq1 =>
  split at h
  · simp at h
  next hmerged =>
  split at h
  · simp at h
  next hassigned =>
  split at h
  · simp at h
  next oldReviewer heq2 =>
  dsimp only at h
  split at h
  · simp at h
  next hlen =>
  split at h
  next heq3 => simp at h
  next pr2' heq3 =>
  simp only [Except.ok.injEq, Prod.mk.injEq] at h
  obtain ⟨rfl, rfl⟩ := h
  -- facts about the chosen candidate
  have hchosen := List.get_mem
    (List.filter (fun c => c.userID != pr.authorID &&
        !Store.isReviewerAssigned st prID c.userID)
      (Store.getActiveTeamMembers st oldReviewer.teamName oldReviewerID))
    (r % (List.filter (fun c => c.userID != pr.authorID &&
        !Store.isReviewerAssigned st prID c.userID)
      (Store.getActiveTeamMembers st oldReviewer.teamName oldReviewerID)).length)
    (Nat.mod_lt r (Nat.pos_of_ne_zero hlen))
  obtain ⟨hcand, hcond⟩ := List.mem_filter.mp hchosen
  obtain ⟨hne_author, hnotRA⟩ := (Bool.and_eq_true _ _).mp hcond
  have hne_author' := bne_iff_ne.mp hne_author
  have hnotRA' := isReviewerAssigned_eq_false_iff.mp
    ((Bool.not_eq_true' _) ▸ hnotRA)
  have holdRA : Store.isReviewerAssigned st prID oldReviewerID = true := by
    revert hassigned
    cases Store.isReviewerAssigned st prID oldReviewerID <;> simp
  have holdmem : oldReviewerID ∈ Store.getReviewers st prID :=
    mem_getReviewers.mpr (isReviewerAssigned_iff.mp holdRA)
  -- decompose the two reads of the pull request row
  unfold Store.getPullRequest at heq1 heq3
  rw [Option.map_eq_some'] at heq1 heq3
  obtain ⟨row, hrow, hpr⟩ := heq1
  obtain ⟨row2, hrow2, hpr2⟩ := heq3
  rw [addReviewer_pullRequests, removeReviewer_pullRequests, hrow] at hrow2
  obtain rfl : row = row2 := by injection hrow2
  subst hpr
  subst hpr2
  have hperm := @getReviewers_after_replace st prID oldReviewerID _ hpairs hnotRA'
  refine ⟨hperm, ?_, ?_, hne_author', oldReviewer, heq2, _, hcand, rfl⟩
  · have hlen1 : ((Store.getReviewers st prID).erase oldReviewerID).length =
        (Store.getReviewers st prID).length - 1 :=
      List.length_erase_of_mem holdmem
    have hlen2 : 0 < (Store.getReviewers st prID).length :=
      List.length_pos_of_mem holdmem
    exact Eq.trans hperm.length_eq
      (by simp only [List.length_cons, hlen1]; omega)
  · intro hc
    exact hnotRA' (mem_getReviewers.mp hc)

/-! ## Error-path and lifecycle theorems -/

/-- C3: an empty replacement pool makes reassignment fail with
`NO_CANDIDATE` and leaves the whole storage state — in particular the
pull request's reviewer set — byte-for-byte unchanged. -/
theorem reassign_no_candidate_fails_unchanged
    (st : StorageState) (prID oldReviewerID : String) (r : Nat)
    (pr : PullRequest) (oldU : User)
    (hpr : Store.getPullRequest st prID = some pr)
    (hopen : (pr.status == "MERGED") = false)
    (hassigned : Store.isReviewerAssigned st prID oldReviewerID = true)
    (holdU : Store.getUser st oldReviewerID = some oldU)
    (hempty : (Store.getActiveTeamMembers st oldU.teamName oldReviewerID).filter
        (fun c => c.userID != pr.authorID &&
          !(Store.isReviewerAssigned st prID c.userID)) = []) :
    Service.ReassignReviewer st prID oldReviewerID r =
      (.error (.svc ⟨"NO_CANDIDATE",
        "no active replacement candidate available in team"⟩), st) ∧
    Store.getReviewers ((Service.ReassignReviewer st prID oldReviewerID r).2) prID =
      Store.getReviewers st prID := by
  have hmain : Service.ReassignReviewer st prID oldReviewerID r =
      (.error (.svc ⟨"NO_CANDIDATE",
        "no active replacement candidate available in team"⟩), st) := by
    unfold Service.ReassignReviewer
    rw [hpr]
    try dsimp only
    rw [hopen, hassigned]
    try dsimp only
    rw [holdU]
    try dsimp only
    simp [hempty]
  exact ⟨hmain, by rw [hmain]⟩

/-- With unique pull-request ids, any stored row carrying the id found by
`find?` is the found row itself. -/
theorem row_unique {st : StorageState} {prID : String} {row : PullRequest}
    (hids : (st.pullRequests.map (fun pr => pr.pullRequestID)).Nodup)
    (hrow : st.pullRequests.find? (fun pr => pr.pullRequestID == prID) = some row) :
    ∀ q ∈ st.pullRequests, q.pullRequestID = prID → q = row := by
  obtain ⟨hprow, as, bs, hsplit, hbefore⟩ := List.find?_eq_some.mp hrow
  intro q hq hqid
  rw [hsplit] at hq hids
  rw [List.map_append, List.map_cons] at hids
  rcases List.mem_append.mp hq with hqa | hqb
  · exact absurd (by simpa using hqid) (by simpa using hbefore q hqa)
  · rcases List.mem_cons.mp hqb with rfl | hqb'
    · rfl
    · exfalso
      have hrowid : row.pullRequestID = prID := by simpa using hprow
      have hcons := (List.nodup_append.mp hids).2.1
      rw [List.nodup_cons] at hcons
      have hnotin : prID ∉ bs.map (fun pr => pr.pullRequestID) :=
        hrowid ▸ hcons.1
      exact hnotin (hqid ▸ List.mem_map_of_mem _ hqb')

theorem find?_map_of_pred_inv {α : Type} {l : List α} {f : α → α} {p : α → Bool}
    (hf : ∀ q, p (f q) = p q) : (l.map f).find? p = (l.find? p).map f := by
  induction l with
  | nil => rfl
  | cons q qs ih =>
    by_cases hq : p q = true
    · simp [List.find?_cons, hf, hq]
    · have hq' : p q = false := by revert hq; cases p q <;> simp
      simp [List.find?_cons, hf, hq', ih]

/-- C5: merging is idempotent — a merge on an already-`MERGED` pull request
succeeds, changes nothing and returns the stored state with its original
merge timestamp; the timestamp is written exactly at the `OPEN → MERGED`
transition. -/
theorem merge_idempotent
    (st : StorageState) (prID : String) (now : Nat)
    (hids : (st.pullRequests.map (fun pr => pr.pullRequestID)).Nodup) :
    (∀ pr, Store.getPullRequest st prID = some pr → pr.status = "MERGED" →
      Service.MergePullRequest st prID now = (.ok pr, st)) ∧
    (∀ pr, Store.getPullRequest st prID = some pr → pr.status = "OPEN" →
      ∃ pr2, (Service.MergePullRequest st prID now).1 = .ok pr2 ∧
        pr2.status = "MERGED" ∧ pr2.mergedAt = some now ∧
        pr2.pullRequestID = pr.pullRequestID) := by
  constructor
  · intro pr hpr hmerged
    have hpr' := hpr
    unfold Store.getPullRequest at hpr'
    rw [Option.map_eq_some'] at hpr'
    obtain ⟨row, hrow, hprdef⟩ := hpr'
    have hrowid : row.pullRequestID = prID := by
      simpa using List.find?_some hrow
    have hrowmerged : row.status = "MERGED" := by
      rw [← hprdef] at hmerged
      exact hmerged
    have hnoopen : ∀ q ∈ st.pullRequests,
        (q.pullRequestID == prID && q.status == "OPEN") = false := by
      intro q hq
      by_cases hid : q.pullRequestID = prID
      · have : q = row := row_unique hids hrow q hq hid
        subst this
        simp [hrowmerged]
      · simp [hid]
    have hfilter : st.pullRequests.filter
        (fun q => q.pullRequestID == prID && q.status == "OPEN") = [] :=
      List.filter_eq_nil_iff.mpr (fun q hq => by simp [hnoopen q hq])
    have hmap : st.pullRequests.map (fun q =>
        if q.pullRequestID == prID && q.status == "OPEN" then
          { q with status := "MERGED", mergedAt := some now }
        else q) = st.pullRequests := by
      rw [List.map_congr_left (g := fun q => q)
        (fun q hq => by rw [hnoopen q hq]; simp), List.map_id']
    have hexists : Store.prExists st prID = true :=
      List.any_eq_true.mpr ⟨row, List.mem_of_find?_eq_some hrow, by simp [hrowid]⟩
    unfold Service.MergePullRequest Store.mergePullRequest
    try dsimp only
    rw [hfilter, hexists, hmap]
    try dsimp only
    rw [show ({ st with pullRequests := st.pullRequests }) = st from rfl]
    simp [hpr]
  · intro pr hpr hopen
    have hpr' := hpr
    unfold Store.getPullRequest at hpr'
    rw [Option.map_eq_some'] at hpr'
    obtain ⟨row, hrow, hprdef⟩ := hpr'
    have hrowid : row.pullRequestID = prID := by
      simpa using List.find?_some hrow
    have hrowopen : row.status = "OPEN" := by
      rw [← hprdef] at hopen
      exact hopen
    have hfiltermem : row ∈ st.pullRequests.filter
        (fun q => q.pullRequestID == prID && q.status == "OPEN") :=
      List.mem_filter.mpr ⟨List.mem_of_find?_eq_some hrow, by simp [hrowid, hrowopen]⟩
    have hlenne : ((st.pullRequests.filter
        (fun q => q.pullRequestID == prID && q.status == "OPEN")).length == 0) = false := by
      have hpos := List.length_pos_of_mem hfiltermem
      rw [beq_eq_false_iff_ne]
      omega
    have hfind2 : (st.pullRequests.map (fun q =>
        if q.pullRequestID == prID && q.status == "OPEN" then
          { q with status := "MERGED", mergedAt := some now }
        else q)).find? (fun q => q.pullRequestID == prID) =
        some { row with status := "MERGED", mergedAt := some now } := by
      rw [find?_map_of_pred_inv (fun q => by split <;> rfl), hrow]
      simp [hrowid, hrowopen]
    unfold Service.MergePullRequest Store.mergePullRequest
    try dsimp only
    rw [hlenne]
    simp only [Bool.false_eq_true, if_false]
    try dsimp only
    unfold Store.getPullRequest
    try dsimp only
    rw [hfind2]
    exact ⟨_, rfl, rfl, rfl, by rw [← hprdef]⟩

/-- C6: reassignment on a `MERGED` pull request always fails with the
merged-state error (source tag `PR_MERGED`, the spec taxonomy's
`INVALID_STATE`), leaving the state — hence the reviewer set — unchanged. -/
theorem reassign_on_merged_fails_invalid_state
    (st : StorageState) (prID oldReviewerID : String) (r : Nat)
    (pr : PullRequest)
    (hpr : Store.getPullRequest st prID = some pr)
    (hm : pr.status = "MERGED") :
    Service.ReassignReviewer st prID oldReviewerID r =
      (.error (.svc ⟨"PR_MERGED", "cannot reassign on merged PR"⟩), st) ∧
    specKind "PR_MERGED" = some ErrKind.invalidState := by
  refine ⟨?_, rfl⟩
  unfold Service.ReassignReviewer
  rw [hpr]
  try dsimp only
  rw [show (pr.status == "MERGED") = true from by simp [hm]]
  try rfl

/-- C7: creating a pull request whose id already exists fails with the
id-collision error (source tag `PR_EXISTS`, the spec taxonomy's
`ALREADY_EXISTS`) and mutates nothing. -/
theorem create_duplicate_fails_already_exists
    (st : StorageState) (prID prName authorID : String) (now : Nat)
    (ρ : Nat → Nat)
    (h : Store.prExists st prID = true) :
    Service.CreatePullRequest st prID prName authorID now ρ =
      (.error (.svc ⟨"PR_EXISTS", "pull request already exists"⟩), st) ∧
    specKind "PR_EXISTS" = some ErrKind.alreadyExists := by
  refine ⟨?_, rfl⟩
  unfold Service.CreatePullRequest
  rw [h]
  try rfl

/-- C8: in the code as written, merging a nonexistent pull request produces
a plain untyped error (`fmt.Errorf`), not a typed `ServiceError`, and the
controller therefore maps it to HTTP 500 `INTERNAL_ERROR` instead of a
distinct 404 not-found response. -/
theorem merge_nonexistent_pr_generic_fault
    (st : StorageState) (prID : String) (now : Nat)
    (h : Store.prExists st prID = false) :
    Service.MergePullRequest st prID now =
      (.error (.generic "pull request not found"), st) ∧
    (∀ e, (Service.MergePullRequest st prID now).1 = .error (.svc e) → False) ∧
    mergeErrorResponse (.generic "pull request not found") = (500, "INTERNAL_ERROR") := by
  have hnone : ∀ q ∈ st.pullRequests, (q.pullRequestID == prID) = false := by
    intro q hq
    have := List.any_eq_false.mp h q hq
    revert this
    cases q.pullRequestID == prID <;> simp
  have hfilter : st.pullRequests.filter
      (fun q => q.pullRequestID == prID && q.status == "OPEN") = [] :=
    List.filter_eq_nil_iff.mpr (fun q hq => by simp [hnone q hq])
  have hmain : Service.MergePullRequest st prID now =
      (.error (.generic "pull request not found"), st) := by
    unfold Service.MergePullRequest Store.mergePullRequest
    try dsimp only
    rw [hfilter]
    try dsimp only
    rw [h]
    try rfl
  refine ⟨hmain, ?_, rfl⟩
  intro e he
  rw [hmain] at he
  simp at he

/-- C9: the reassignment preconditions are checked in source order with the
first failure winning: missing pull request reports `NOT_FOUND` before all
else; a merged pull request reports `PR_MERGED` regardless of assignment; an
unassigned outgoing user reports `NOT_ASSIGNED`; an unknown outgoing user
reports `NOT_FOUND` (reviewer) only after the first three checks pass. -/
theorem reassign_precondition_order
    (st : StorageState) (prID oldReviewerID : String) (r : Nat) :
    (Store.getPullRequest st prID = none →
      Service.ReassignReviewer st prID oldReviewerID r =
        (.error (.svc ⟨"NOT_FOUND", "pull request not found"⟩), st)) ∧
    (∀ pr, Store.getPullRequest st prID = some pr → pr.status = "MERGED" →
      Service.ReassignReviewer st prID oldReviewerID r =
        (.error (.svc ⟨"PR_MERGED", "cannot reassign on merged PR"⟩), st)) ∧
    (∀ pr, Store.getPullRequest st prID = some pr → pr.status ≠ "MERGED" →
      Store.isReviewerAssigned st prID oldReviewerID = false →
      Service.ReassignReviewer st prID oldReviewerID r =
        (.error (.svc ⟨"NOT_ASSIGNED",
          "user is not assigned as reviewer to this PR"⟩), st)) ∧
    (∀ pr, Store.getPullRequest st prID = some pr → pr.status ≠ "MERGED" →
      Store.isReviewerAssigned st prID oldReviewerID = true →
      Store.getUser st oldReviewerID = none →
      Service.ReassignReviewer st prID oldReviewerID r =
        (.error (.svc ⟨"NOT_FOUND", "reviewer not found"⟩), st)) := by
  refine ⟨?_, ?_, ?_, ?_⟩
  · intro hnone
    unfold Service.ReassignReviewer
    rw [hnone]
    try rfl
  · intro pr hpr hm
    unfold Service.ReassignReviewer
    rw [hpr]
    try dsimp only
    rw [show (pr.status == "MERGED") = true from by simp [hm]]
    try rfl
  · intro pr hpr hm hra
    unfold Service.ReassignReviewer
    rw [hpr]
    try dsimp only
    rw [show (pr.status == "MERGED") = false from by simp [hm], hra]
    try rfl
  · intro pr hpr hm hra hnouser
    unfold Service.ReassignReviewer
    rw [hpr]
    try dsimp only
    rw [show (pr.status == "MERGED") = false from by simp [hm], hra]
    try dsimp only
    rw [hnouser]
    try rfl

/-! ## Team creation and user upserts -/

theorem find?_map_of_fix {α : Type} {l : List α} {f : α → α} {p : α → Bool}
    (hp : ∀ q, p (f q) = p q) (hfix : ∀ q, p q = true → f q = q) :
    (l.map f).find? p = l.find? p := by
  induction l with
  | nil => rfl
  | cons q qs ih =>
    by_cases hq : p q = true
    · rw [List.map_cons, List.find?_cons_of_pos _ (by rw [hp]; exact hq),
        List.find?_cons_of_pos _ hq, hfix q hq]
    · have hq' : p q = false := by revert hq; cases p q <;> simp
      rw [List.map_cons, List.find?_cons_of_neg _ (by rw [hp, hq']; simp),
        List.find?_cons_of_neg _ (by rw [hq']; simp), ih]

theorem getUser_upsert_self (st : StorageState) (u : User) :
    Store.getUser (Store.createOrUpdateUser st u) u.userID = some u := by
  unfold Store.getUser Store.createOrUpdateUser
  cases hany : st.users.any (fun x => x.userID == u.userID) with
  | true =>
    rw [if_pos rfl]
    have : ∀ (l : List User), l.any (fun x => x.userID == u.userID) = true →
        (l.map (fun x => if x.userID == u.userID then u else x)).find?
          (fun x => x.userID == u.userID) = some u := by
      intro l
      induction l with
      | nil => intro hc; cases hc
      | cons x xs ih =>
        intro hl
        by_cases hx : x.userID = u.userID
        · rw [List.map_cons, if_pos (by simp [hx])]
          rw [List.find?_cons_of_pos _ (by simp)]
        · rw [List.map_cons, if_neg (by simp [hx])]
          rw [List.find?_cons_of_neg _ (by simp [hx])]
          refine ih ?_
          rcases List.any_eq_true.mp hl with ⟨y, hy, hyp⟩
          rcases List.mem_cons.mp hy with rfl | hy'
          · exact absurd (by simpa using hyp) hx
          · exact List.any_eq_true.mpr ⟨y, hy', hyp⟩
    exact this st.users hany
  | false =>
    rw [if_neg (by simp)]
    have hnone : st.users.find? (fun x => x.userID == u.userID) = none :=
      List.find?_eq_none.mpr (fun x hx => by
        have := List.any_eq_false.mp hany x hx
        simpa using this)
    rw [List.find?_append, hnone, Option.none_or,
      List.find?_cons_of_pos _ (by simp)]

theorem getUser_upsert_ne (st : StorageState) (u : User) (x : String)
    (hx : x ≠ u.userID) :
    Store.getUser (Store.createOrUpdateUser st u) x = Store.getUser st x := by
  unfold Store.getUser Store.createOrUpdateUser
  cases hany : st.users.any (fun y => y.userID == u.userID) with
  | true =>
    rw [if_pos rfl]
    refine find?_map_of_fix (fun q => ?_) (fun q hq => ?_)
    · by_cases hq : q.userID = u.userID
      · rw [if_pos (by simp [hq])]
        rw [hq]
      · rw [if_neg (by simp [hq])]
    · have hqx : q.userID = x := by simpa using hq
      rw [if_neg (by simp only [hqx, beq_iff_eq]; exact hx)]
  | false =>
    rw [if_neg (by simp)]
    rw [List.find?_append,
      List.find?_cons_of_neg _ (by simp only [beq_iff_eq]; exact fun h => hx h.symm),
      List.find?_nil, Option.or_none]

theorem upsert_keys_nodup (st : StorageState) (u : User)
    (h : (st.users.map (fun x => x.userID)).Nodup) :
    ((Store.createOrUpdateUser st u).users.map (fun x => x.userID)).Nodup := by
  unfold Store.createOrUpdateUser
  cases hany : st.users.any (fun x => x.userID == u.userID) with
  | true =>
    rw [if_pos rfl]
    have : (st.users.map (fun x => if x.userID == u.userID then u else x)).map
        (fun x => x.userID) = st.users.map (fun x => x.userID) := by
      rw [List.map_map]
      refine List.map_congr_left (fun y hy => ?_)
      by_cases hyu : y.userID = u.userID
      · simp [hyu]
      · simp [hyu]
    rw [this]
    exact h
  | false =>
    rw [if_neg (by simp)]
    rw [List.map_append, List.map_cons, List.map_nil, List.nodup_append]
    refine ⟨h, List.nodup_singleton _, fun a ha hb => ?_⟩
    rw [List.mem_singleton] at hb
    subst hb
    obtain ⟨y, hy, hyid⟩ := List.mem_map.mp ha
    exact absurd hyid (by simpa using List.any_eq_false.mp hany y hy)

/-- The member upsert loop of `Service.CreateTeam`, abstracted over the
starting state. -/
def upsertMembers (tn : String) (members : List TeamMember)
    (st : StorageState) : StorageState :=
  members.foldl (fun s member => Store.createOrUpdateUser s
    { userID := member.userID, username := member.username,
      teamName := tn, isActive := member.isActive }) st

theorem getUser_upsertMembers_ne (tn : String) (members : List TeamMember)
    (x : String) (hx : ∀ m ∈ members, m.userID ≠ x) :
    ∀ st : StorageState,
      Store.getUser (upsertMembers tn members st) x = Store.getUser st x := by
  induction members with
  | nil => intro st; rfl
  | cons m ms ih =>
    intro st
    show Store.getUser (upsertMembers tn ms _) x = _
    rw [ih (fun m' hm' => hx m' (List.mem_cons_of_mem _ hm'))]
    exact getUser_upsert_ne st _ x
      (fun h => hx m (List.mem_cons_self _ _) h.symm)

theorem getUser_upsertMembers_mem (tn : String) (members : List TeamMember)
    (hmem : (members.map (fun m => m.userID)).Nodup) :
    ∀ st : StorageState, ∀ m ∈ members,
      Store.getUser (upsertMembers tn members st) m.userID =
        some { userID := m.userID, username := m.username,
               teamName := tn, isActive := m.isActive } := by
  induction members with
  | nil => intro st m hm; cases hm
  | cons m0 ms ih =>
    intro st m hm
    rw [List.map_cons, List.nodup_cons] at hmem
    rcases List.mem_cons.mp hm with rfl | hm'
    · show Store.getUser (upsertMembers tn ms _) m.userID = _
      rw [getUser_upsertMembers_ne tn ms m.userID
        (fun m' hm' h => hmem.1 (h ▸ List.mem_map_of_mem _ hm'))]
      exact getUser_upsert_self st _
    · exact ih hmem.2 _ m hm'

theorem upsertMembers_keys_nodup (tn : String) (members : List TeamMember) :
    ∀ st : StorageState, (st.users.map (fun x => x.userID)).Nodup →
      ((upsertMembers tn members st).users.map (fun x => x.userID)).Nodup := by
  induction members with
  | nil => intro st h; exact h
  | cons m ms ih =>
    intro st h
    exact ih _ (upsert_keys_nodup st _ h)

/-- C10: on a fresh team name, `Service.CreateTeam` upserts every listed
member by user id — any pre-existing user with that id (whatever their
previous team) ends up with the new username, the new team, and the new
active flag — while each user keeps exactly one row (one team). -/
theorem createTeam_upserts_members_by_id
    (st : StorageState) (req : TeamResponse)
    (hteam : Store.teamExists st req.teamName = false)
    (hmem : (req.members.map (fun m => m.userID)).Nodup)
    (hkeys : (st.users.map (fun u => u.userID)).Nodup) :
    ∃ st2, Service.CreateTeam st req = (.ok (), st2) ∧
      (∀ m ∈ req.members, Store.getUser st2 m.userID =
        some { userID := m.userID, username := m.username,
               teamName := req.teamName, isActive := m.isActive }) ∧
      (st2.users.map (fun u => u.userID)).Nodup := by
  refine ⟨upsertMembers req.teamName req.members (Store.createTeam st req.teamName),
    ?_, ?_, ?_⟩
  · unfold Service.CreateTeam
    rw [hteam]
    try rfl
  · exact getUser_upsertMembers_mem req.teamName req.members hmem _
  · exact upsertMembers_keys_nodup req.teamName req.members _ hkeys

/-! ## The assignment invariant (no duplicates, never the author) -/

theorem addReviewer_users (st : StorageState) (p u : String) :
    (Store.addReviewer st p u).users = st.users := by
  unfold Store.addReviewer
  split <;> rfl

theorem addReviewer_pairs_nodup (st : StorageState) (p u : String)
    (h : st.prReviewers.Nodup) :
    (Store.addReviewer st p u).prReviewers.Nodup := by
  unfold Store.addReviewer
  cases hc : st.prReviewers.contains (p, u) with
  | true => rw [if_pos rfl]; exact h
  | false =>
    rw [if_neg (by simp)]
    rw [List.nodup_append]
    refine ⟨h, List.nodup_singleton _, fun a ha hb => ?_⟩
    rw [List.mem_singleton] at hb
    subst hb
    have : st.prReviewers.contains (p, u) = true := List.elem_iff.mpr ha
    rw [hc] at this
    cases this

theorem mem_addReviewer_pairs {st : StorageState} {p u : String}
    {q : String × String} :
    q ∈ (Store.addReviewer st p u).prReviewers ↔
      q ∈ st.prReviewers ∨ q = (p, u) := by
  unfold Store.addReviewer
  cases hc : st.prReviewers.contains (p, u) with
  | true =>
    rw [if_pos rfl]
    refine ⟨Or.inl, ?_⟩
    rintro (hq | rfl)
    · exact hq
    · exact List.elem_iff.mp hc
  | false =>
    rw [if_neg (by simp)]
    simp [List.mem_append]

theorem foldl_addReviewer_pullRequests (p : String) (l : List String) :
    ∀ st : StorageState,
      (l.foldl (fun s x => Store.addReviewer s p x) st).pullRequests =
        st.pullRequests := by
  induction l with
  | nil => intro st; rfl
  | cons x xs ih =>
    intro st
    rw [List.foldl_cons, ih, addReviewer_pullRequests]

theorem foldl_addReviewer_pairs_nodup (p : String) (l : List String) :
    ∀ st : StorageState, st.prReviewers.Nodup →
      (l.foldl (fun s x => Store.addReviewer s p x) st).prReviewers.Nodup := by
  induction l with
  | nil => intro st h; exact h
  | cons x xs ih =>
    intro st h
    exact ih _ (addReviewer_pairs_nodup st p x h)

theorem mem_foldl_addReviewer_pairs (p : String) (l : List String)
    {q : String × String} :
    ∀ st : StorageState,
      (q ∈ (l.foldl (fun s x => Store.addReviewer s p x) st).prReviewers ↔
        q ∈ st.prReviewers ∨ ∃ x ∈ l, q = (p, x)) := by
  induction l with
  | nil => intro st; simp
  | cons x xs ih =>
    intro st
    rw [List.foldl_cons, ih, mem_addReviewer_pairs]
    constructor
    · rintro ((hq | rfl) | ⟨y, hy, rfl⟩)
      · exact Or.inl hq
      · exact Or.inr ⟨x, List.mem_cons_self _ _, rfl⟩
      · exact Or.inr ⟨y, List.mem_cons_of_mem _ hy, rfl⟩
    · rintro (hq | ⟨y, hy, rfl⟩)
      · exact Or.inl (Or.inl hq)
      · rcases List.mem_cons.mp hy with rfl | hy'
        · exact Or.inl (Or.inr rfl)
        · exact Or.inr ⟨y, hy', rfl⟩

/-- The data-model invariant the engine maintains: unique pull-request ids,
a duplicate-free `pr_reviewers` relation, no orphan reviewer rows, and no
pull request whose author appears among its reviewers. -/
def StateInv (st : StorageState) : Prop :=
  (st.pullRequests.map (fun pr => pr.pullRequestID)).Nodup ∧
  st.prReviewers.Nodup ∧
  (∀ q ∈ st.prReviewers, Store.prExists st q.1 = true) ∧
  (∀ pr ∈ st.pullRequests, (pr.pullRequestID, pr.authorID) ∉ st.prReviewers)

/-- Replacing a reviewer association (remove then add) on an existing pull
request with a non-author user preserves the invariant. -/
theorem stateInv_replace (st : StorageState) (prID oldID newID : String)
    (row : PullRequest)
    (hinv : StateInv st)
    (hrow : st.pullRequests.find? (fun q => q.pullRequestID == prID) = some row)
    (hne : newID ≠ row.authorID) :
    StateInv (Store.addReviewer (Store.removeReviewer st prID oldID) prID newID) := by
  obtain ⟨hids, hpairs, hfk, hauthors⟩ := hinv
  have hrows : (Store.addReviewer (Store.removeReviewer st prID oldID)
      prID newID).pullRequests = st.pullRequests := by
    rw [addReviewer_pullRequests, removeReviewer_pullRequests]
  have hprex : ∀ x, Store.prExists (Store.addReviewer
      (Store.removeReviewer st prID oldID) prID newID) x = Store.prExists st x := by
    intro x
    unfold Store.prExists
    rw [hrows]
  refine ⟨by rw [hrows]; exact hids,
    addReviewer_pairs_nodup _ _ _ (hpairs.filter _), ?_, ?_⟩
  · intro q hq
    rw [hprex]
    rcases mem_addReviewer_pairs.mp hq with hq' | rfl
    · rw [removeReviewer_prReviewers] at hq'
      exact hfk q (List.mem_filter.mp hq').1
    · exact List.any_eq_true.mpr
        ⟨row, List.mem_of_find?_eq_some hrow,
         by simpa using List.find?_some hrow⟩
  · intro pr' hpr' hc
    rw [hrows] at hpr'
    rcases mem_addReviewer_pairs.mp hc with hc' | hceq
    · rw [removeReviewer_prReviewers] at hc'
      exact hauthors pr' hpr' (List.mem_filter.mp hc').1
    · have hid : pr'.pullRequestID = prID := congrArg Prod.fst hceq
      have hau : pr'.authorID = newID := congrArg Prod.snd hceq
      have hroweq : pr' = row := row_unique hids hrow pr' hpr' hid
      exact hne (by rw [← hau, hroweq])

/-- `Service.CreatePullRequest` preserves the invariant. -/
theorem stateInv_createPR (st : StorageState) (prID prName authorID : String)
    (now : Nat) (ρ : Nat → Nat) (h : StateInv st) :
    StateInv (Service.CreatePullRequest st prID prName authorID now ρ).2 := by
  obtain ⟨hids, hpairs, hfk, hauthors⟩ := h
  unfold Service.CreatePullRequest
  cases hex : Store.prExists st prID with
  | true => exact ⟨hids, hpairs, hfk, hauthors⟩
  | false =>
    cases hgu : Store.getUser st authorID with
    | none => exact ⟨hids, hpairs, hfk, hauthors⟩
    | some author =>
      show StateInv ((Service.assignReviewers
        (Store.createPullRequest st
          { pullRequestID := prID, pullRequestName := prName,
            authorID := authorID, status := "OPEN", createdAt := now,
            mergedAt := none, assignedReviewers := [] })
        author.teamName authorID 2 ρ).foldl
          (fun s x => Store.addReviewer s prID x)
          (Store.createPullRequest st
            { pullRequestID := prID, pullRequestName := prName,
              authorID := authorID, status := "OPEN", createdAt := now,
              mergedAt := none, assignedReviewers := [] }))
      have hnotin : prID ∉ st.pullRequests.map (fun q => q.pullRequestID) := by
        intro hc
        obtain ⟨q, hq, hqid⟩ := List.mem_map.mp hc
        exact absurd hqid (by simpa using List.any_eq_false.mp hex q hq)
      have hrows2 : ∀ R : List String,
          ((R.foldl (fun s x => Store.addReviewer s prID x)
            (Store.createPullRequest st
              { pullRequestID := prID, pullRequestName := prName,
                authorID := authorID, status := "OPEN", createdAt := now,
                mergedAt := none, assignedReviewers := [] }))).pullRequests =
          st.pullRequests ++
            [{ pullRequestID := prID, pullRequestName := prName,
               authorID := authorID, status := "OPEN", createdAt := now,
               mergedAt := none, assignedReviewers := [] }] := by
        intro R
        rw [foldl_addReviewer_pullRequests]
        rfl
      refine ⟨?_, ?_, ?_, ?_⟩
      · rw [hrows2, List.map_append, List.map_cons, List.map_nil,
          List.nodup_append]
        exact ⟨hids, List.nodup_singleton _,
          fun a ha hb => by
            rw [List.mem_singleton] at hb
            subst hb
            exact hnotin ha⟩
      · exact foldl_addReviewer_pairs_nodup _ _ _ hpairs
      · intro q hq
        unfold Store.prExists
        rw [hrows2, List.any_append]
        rcases (mem_foldl_addReviewer_pairs _ _ _).mp hq with hq' | ⟨x, hx, rfl⟩
        · have h1 := hfk q hq'
          unfold Store.prExists at h1
          rw [h1]
          rfl
        · simp
      · intro pr' hpr' hc
        rw [hrows2] at hpr'
        rcases (mem_foldl_addReviewer_pairs _ _ _).mp hc with hc' | ⟨x, hx, hceq⟩
        · rcases List.mem_append.mp hpr' with hold | hnew
          · exact hauthors pr' hold hc'
          · rw [List.mem_singleton] at hnew
            subst hnew
            exact absurd (hfk _ hc') (by simpa using hex)
        · have hid : pr'.pullRequestID = prID := congrArg Prod.fst hceq
          have hau : pr'.authorID = x := congrArg Prod.snd hceq
          rcases List.mem_append.mp hpr' with hold | hnew
          · refine hnotin ?_
            rw [← hid]
            exact List.mem_map_of_mem _ hold
          · rw [List.mem_singleton] at hnew
            have : pr'.authorID = authorID := by rw [hnew]
            exact assignReviewers_not_excluded (this ▸ hau ▸ hx)

/-- `Service.ReassignReviewer` preserves the invariant. -/
theorem stateInv_reassign (st : StorageState) (prID oldReviewerID : String)
    (r : Nat) (h : StateInv st) :
    StateInv (Service.ReassignReviewer st prID oldReviewerID r).2 := by
  unfold Service.ReassignReviewer
  split
  · exact h
  next pr heq1 =>
  split
  · exact h
  split
  · exact h
  split
  · exact h
  next oldReviewer heq2 =>
  dsimp only
  split
  · exact h
  next hlen =>
  -- decompose the found row
  have heq1' := heq1
  unfold Store.getPullRequest at heq1'
  rw [Option.map_eq_some'] at heq1'
  obtain ⟨row, hrow, hpr⟩ := heq1'
  have hchosen := List.get_mem
    (List.filter (fun c => c.userID != pr.authorID &&
        !Store.isReviewerAssigned st prID c.userID)
      (Store.getActiveTeamMembers st oldReviewer.teamName oldReviewerID))
    (r % (List.filter (fun c => c.userID != pr.authorID &&
        !Store.isReviewerAssigned st prID c.userID)
      (Store.getActiveTeamMembers st oldReviewer.teamName oldReviewerID)).length)
    (Nat.mod_lt r (Nat.pos_of_ne_zero hlen))
  obtain ⟨-, hcond⟩ := List.mem_filter.mp hchosen
  have hne_author := bne_iff_ne.mp ((Bool.and_eq_true _ _).mp hcond).1
  have hpa : pr.authorID = row.authorID := by rw [← hpr]
  split
  · exact stateInv_replace st prID oldReviewerID _ row h hrow
      (fun hc => hne_author (hc.trans hpa.symm))
  · exact stateInv_replace st prID oldReviewerID _ row h hrow
      (fun hc => hne_author (hc.trans hpa.symm))

/-- One engine operation: pull-request creation (with its initial random
assignment) or reviewer reassignment. -/
inductive Op where
  | createPR (prID prName authorID : String) (now : Nat) (ρ : Nat → Nat)
  | reassign (prID oldReviewerID : String) (r : Nat)

/-- The state reached after one engine operation. -/
def applyOp (st : StorageState) : Op → StorageState
  | .createPR prID prName authorID now ρ =>
    (Service.CreatePullRequest st prID prName authorID now ρ).2
  | .reassign prID oldReviewerID r =>
    (Service.ReassignReviewer st prID oldReviewerID r).2

/-- The state reached after a sequence of engine operations. -/
def runOps (st : StorageState) (ops : List Op) : StorageState :=
  ops.foldl applyOp st

theorem stateInv_applyOp (st : StorageState) (op : Op) (h : StateInv st) :
    StateInv (applyOp st op) := by
  cases op with
  | createPR prID prName authorID now ρ =>
    exact stateInv_createPR st prID prName authorID now ρ h
  | reassign prID oldReviewerID r =>
    exact stateInv_reassign st prID oldReviewerID r h

theorem stateInv_runOps (ops : List Op) :
    ∀ st : StorageState, StateInv st → StateInv (runOps st ops) := by
  induction ops with
  | nil => intro st h; exact h
  | cons op ops ih =>
    intro st h
    exact ih _ (stateInv_applyOp st op h)

/-- C4: starting from any state satisfying the data-model invariant, after
any sequence of engine operations (creation with initial assignment,
reassignment) every pull request's reviewer set is duplicate-free and never
contains that pull request's author. -/
theorem reviewer_sets_nodup_and_author_free
    (st : StorageState) (ops : List Op) (h : StateInv st) :
    ∀ pr ∈ (runOps st ops).pullRequests,
      (Store.getReviewers (runOps st ops) pr.pullRequestID).Nodup ∧
      pr.authorID ∉ Store.getReviewers (runOps st ops) pr.pullRequestID := by
  have hinv := stateInv_runOps ops st h
  intro pr hpr
  exact ⟨getReviewers_nodup hinv.2.1,
    fun hc => hinv.2.2.2 pr hpr (mem_getReviewers.mp hc)⟩

/-! ## Concrete example states and witnesses -/

/-- A four-member team with no pull requests yet. -/
def sampleState : StorageState :=
  { teams := ["t"],
    users := [⟨"a", "Alice", "t", true⟩, ⟨"b", "Bob", "t", true⟩,
              ⟨"c", "Carol", "t", true⟩, ⟨"d", "Dan", "t", true⟩],
    pullRequests := [], prReviewers := [] }

/-- The same team with an open pull request by `a`, reviewed by `c` and `d`. -/
def sampleState2 : StorageState :=
  { sampleState with
    pullRequests := [⟨"pr1", "My PR", "a", "OPEN", 10, none, []⟩],
    prReviewers := [("pr1", "c"), ("pr1", "d")] }

/-- A two-member team whose only non-author member is already assigned, so a
reassignment has no eligible replacement. -/
def sampleState3 : StorageState :=
  { teams := ["t3"],
    users := [⟨"x", "Xena", "t3", true⟩, ⟨"y", "Yuri", "t3", true⟩],
    pullRequests := [⟨"pr3", "Small team PR", "x", "OPEN", 4, none, []⟩],
    prReviewers := [("pr3", "y")] }

/-- A state holding an already-merged pull request. -/
def sampleState4 : StorageState :=
  { teams := ["t4"],
    users := [⟨"a4", "Ana", "t4", true⟩, ⟨"b4", "Ben", "t4", true⟩,
              ⟨"c4", "Cid", "t4", true⟩],
    pullRequests := [⟨"pr4", "Done PR", "a4", "MERGED", 3, some 7, []⟩],
    prReviewers := [("pr4", "b4")] }

/-- Witness for C1 at a concrete team of three active non-author members. -/
theorem createPR_assigns_min_k_two_witness :
    Store.prExists sampleState "pr1" = false ∧
    Store.getUser sampleState "a" = some ⟨"a", "Alice", "t", true⟩ ∧
    (sampleState.users.map (fun u => u.userID)).Nodup ∧
    ∃ pr : PullRequest,
      (Service.CreatePullRequest sampleState "pr1" "My PR" "a" 10
        (fun _ => 0)).1 = .ok pr ∧
      pr.assignedReviewers.length =
        min (Store.getActiveTeamMembers sampleState "t" "a").length 2 ∧
      pr.assignedReviewers.Nodup ∧
      "a" ∉ pr.assignedReviewers :=
  ⟨by decide, by decide, by decide,
   createPR_assigns_min_k_two_distinct_nonauthor_reviewers sampleState "pr1"
     "My PR" "a" 10 (fun _ => 0) ⟨"a", "Alice", "t", true⟩
     (by decide) (by decide) (by decide)⟩

/-- Witness for C2: reassigning `c` out of `pr1` picks the only free team
mate `b` and keeps the reviewer count at two. -/
theorem reassign_success_replaces_one_reviewer_witness :
    sampleState2.prReviewers.Nodup ∧
    (Service.ReassignReviewer sampleState2 "pr1" "c" 0).1 =
      .ok (⟨"pr1", "My PR", "a", "OPEN", 10, none, ["b", "d"]⟩, "b") ∧
    ((⟨"pr1", "My PR", "a", "OPEN", 10, none, ["b", "d"]⟩ :
        PullRequest).assignedReviewers.Perm
      ("b" :: (Store.getReviewers sampleState2 "pr1").erase "c") ∧
    (⟨"pr1", "My PR", "a", "OPEN", 10, none, ["b", "d"]⟩ :
        PullRequest).assignedReviewers.length =
      (Store.getReviewers sampleState2 "pr1").length ∧
    "b" ∉ Store.getReviewers sampleState2 "pr1" ∧
    "b" ≠ (⟨"pr1", "My PR", "a", "OPEN", 10, none, ["b", "d"]⟩ :
        PullRequest).authorID ∧
    ∃ oldU, Store.getUser sampleState2 "c" = some oldU ∧
      ∃ u ∈ Store.getActiveTeamMembers sampleState2 oldU.teamName "c",
        u.userID = "b") :=
  ⟨by decide, by decide,
   reassign_success_replaces_one_reviewer sampleState2 "pr1" "c" 0
     ⟨"pr1", "My PR", "a", "OPEN", 10, none, ["b", "d"]⟩ "b"
     (by decide) (by decide)⟩

/-- Witness for C3: the one-candidate-team scenario fails with
`NO_CANDIDATE` and leaves the state untouched. -/
theorem reassign_no_candidate_witness :
    Store.getPullRequest sampleState3 "pr3" =
      some ⟨"pr3", "Small team PR", "x", "OPEN", 4, none, ["y"]⟩ ∧
    Service.ReassignReviewer sampleState3 "pr3" "y" 0 =
      (.error (.svc ⟨"NO_CANDIDATE",
        "no active replacement candidate available in team"⟩), sampleState3) ∧
    Store.getReviewers ((Service.ReassignReviewer sampleState3 "pr3" "y" 0).2)
      "pr3" = Store.getReviewers sampleState3 "pr3" :=
  ⟨by decide,
   (reassign_no_candidate_fails_unchanged sampleState3 "pr3" "y" 0
     ⟨"pr3", "Small team PR", "x", "OPEN", 4, none, ["y"]⟩
     ⟨"y", "Yuri", "t3", true⟩
     (by decide) (by decide) (by decide) (by decide) (by decide)).1,
   (reassign_no_candidate_fails_unchanged sampleState3 "pr3" "y" 0
     ⟨"pr3", "Small team PR", "x", "OPEN", 4, none, ["y"]⟩
     ⟨"y", "Yuri", "t3", true⟩
     (by decide) (by decide) (by decide) (by decide) (by decide)).2⟩

/-- Witness for C4: a concrete creation followed by a reassignment keeps
every reviewer set duplicate-free and author-free. -/
theorem reviewer_sets_nodup_and_author_free_witness :
    StateInv sampleState2 ∧
    ∀ pr ∈ (runOps sampleState2
        [Op.createPR "pr9" "Second" "b" 5 (fun _ => 0),
         Op.reassign "pr1" "c" 0]).pullRequests,
      (Store.getReviewers (runOps sampleState2
        [Op.createPR "pr9" "Second" "b" 5 (fun _ => 0),
         Op.reassign "pr1" "c" 0]) pr.pullRequestID).Nodup ∧
      pr.authorID ∉ Store.getReviewers (runOps sampleState2
        [Op.createPR "pr9" "Second" "b" 5 (fun _ => 0),
         Op.reassign "pr1" "c" 0]) pr.pullRequestID :=
  ⟨by unfold StateInv; decide,
   reviewer_sets_nodup_and_author_free sampleState2
     [Op.createPR "pr9" "Second" "b" 5 (fun _ => 0),
      Op.reassign "pr1" "c" 0]
     (by unfold StateInv; decide)⟩

/-- Witness for C5: merging the already-merged `pr4` is a successful no-op
returning the stored state with its original timestamp `7`. -/
theorem merge_idempotent_witness :
    Service.MergePullRequest sampleState4 "pr4" 99 =
      (.ok ⟨"pr4", "Done PR", "a4", "MERGED", 3, some 7, ["b4"]⟩,
        sampleState4) :=
  (merge_idempotent sampleState4 "pr4" 99 (by decide)).1
    ⟨"pr4", "Done PR", "a4", "MERGED", 3, some 7, ["b4"]⟩
    (by decide) (by decide)

/-- Witness for C6: reassigning on the merged `pr4` fails with the
merged-state error and the state is unchanged. -/
theorem reassign_on_merged_witness :
    Service.ReassignReviewer sampleState4 "pr4" "b4" 0 =
      (.error (.svc ⟨"PR_MERGED", "cannot reassign on merged PR"⟩),
        sampleState4) ∧
    specKind "PR_MERGED" = some ErrKind.invalidState :=
  reassign_on_merged_fails_invalid_state sampleState4 "pr4" "b4" 0
    ⟨"pr4", "Done PR", "a4", "MERGED", 3, some 7, ["b4"]⟩
    (by decide) (by decide)

/-- Witness for C7: recreating `pr1` fails with the id-collision error and
leaves the state untouched. -/
theorem create_duplicate_witness :
    Service.CreatePullRequest sampleState2 "pr1" "Again" "b" 11 (fun _ => 0) =
      (.error (.svc ⟨"PR_EXISTS", "pull request already exists"⟩),
        sampleState2) ∧
    specKind "PR_EXISTS" = some ErrKind.alreadyExists :=
  create_duplicate_fails_already_exists sampleState2 "pr1" "Again" "b" 11
    (fun _ => 0) (by decide)

/-- Witness for C8: merging the nonexistent `ghost` id yields the untyped
not-found error, which the controller maps to HTTP 500. -/
theorem merge_nonexistent_witness :
    Service.MergePullRequest sampleState2 "ghost" 50 =
      (.error (.generic "pull request not found"), sampleState2) ∧
    (∀ e, (Service.MergePullRequest sampleState2 "ghost" 50).1 =
      .error (.svc e) → False) ∧
    mergeErrorResponse (.generic "pull request not found") =
      (500, "INTERNAL_ERROR") :=
  merge_nonexistent_pr_generic_fault sampleState2 "ghost" 50 (by decide)

/-- Witness for C9: on the merged `pr4`, even with an outgoing user who is
not assigned at all, the merged-state check fires first. -/
theorem reassign_precondition_order_witness :
    Service.ReassignReviewer sampleState4 "pr4" "zz" 0 =
      (.error (.svc ⟨"PR_MERGED", "cannot reassign on merged PR"⟩),
        sampleState4) :=
  (reassign_precondition_order sampleState4 "pr4" "zz" 0).2.1
    ⟨"pr4", "Done PR", "a4", "MERGED", 3, some 7, ["b4"]⟩
    (by decide) (by decide)

/-- Witness for C10: creating team `t9` moves the existing user `a` out of
team `t` into `t9` with the new username and active flag, and adds `z`. -/
theorem createTeam_upserts_witness :
    Store.teamExists sampleState2 "t9" = false ∧
    ∃ st2, Service.CreateTeam sampleState2
        ⟨"t9", [⟨"a", "Alicia", false⟩, ⟨"z", "Zed", true⟩]⟩ = (.ok (), st2) ∧
      (∀ m ∈ [(⟨"a", "Alicia", false⟩ : TeamMember), ⟨"z", "Zed", true⟩],
        Store.getUser st2 m.userID =
          some { userID := m.userID, username := m.username,
                 teamName := "t9", isActive := m.isActive }) ∧
      (st2.users.map (fun u => u.userID)).Nodup :=
  ⟨by decide,
   createTeam_upserts_members_by_id sampleState2
     ⟨"t9", [⟨"a", "Alicia", false⟩, ⟨"z", "Zed", true⟩]⟩
     (by decide) (by decide) (by decide)⟩

end PRReviewer
